import Mathlib

/-!
Verification development for `buildsheet.py`, a one-file program that turns a
PCB CAD file into placement-assist sheets.  The Python source is shallowly
embedded below: pure helper functions become Lean functions, the stateful
extraction loop becomes explicit state passing over a `BoardInfo` record, and
fallible code returns `Except String`.  Python floats are idealised: decimal
literals are modelled exactly as rationals (IEEE rounding is abstracted away),
while the special values produced by `float("inf")`, `float("-inf")` and
`float("nan")` are modelled by dedicated constructors of `PyFloat`.  Geometry
computed with `math.cos`/`math.sin` is modelled over the real numbers.
Python object identity (used by list membership and by the claim that a
component occurs "exactly once" in an index bucket) is modelled by a `uid`
field assigned sequentially at creation time.
-/

namespace Buildsheet

/-! ## Geometry primitives (buildsheet.py lines 14-21, 208-222)

`rotate_coords` and the corner computation of `render_component_pad` only do
float arithmetic on already-validated numbers, so they are modelled over `ℝ`.
`RComponent`/`RPad` are the real-valued views of a component and one of its
pads: exactly the fields the renderer reads. -/

/-- Model of `rotate_coords(xy, angle)` (lines 14-21): counter-clockwise
rotation of a point about the origin by `angle` degrees; `None` (absent angle)
returns the point unchanged. -/
noncomputable def rotate_coords (xy : ℝ × ℝ) (angle : Option ℝ) : ℝ × ℝ :=
  match angle with
  | none => xy
  | some a =>
    let r := a / 180 * Real.pi
    (xy.1 * Real.cos r - xy.2 * Real.sin r, xy.1 * Real.sin r + xy.2 * Real.cos r)

/-- The fields of a `Pad` read by `render_component_pad`, as real numbers. -/
structure RPad where
  x : ℝ
  y : ℝ
  width : ℝ
  height : ℝ
  angle : Option ℝ

/-- The fields of a `Component` read by `render_component_pad`, as reals. -/
structure RComponent where
  x : ℝ
  y : ℝ
  angle : Option ℝ

/-- Model of the corner pipeline of `render_component_pad` (lines 208-220):
the four pad-local corners, rotated by the pad angle, translated by the pad
position, rotated by the component angle, translated by the component
position; the final map models the `- bi.xmin` / `- bi.ymin` offsets applied
at `moveTo`/`lineTo` time (lines 218-220). -/
noncomputable def render_component_pad_corners
    (xmin ymin : ℝ) (c : RComponent) (p : RPad) : List (ℝ × ℝ) :=
  let corners : List (ℝ × ℝ) :=
    [(-(p.width / 2), -(p.height / 2)),
     (-(p.width / 2), p.height / 2),
     (p.width / 2, p.height / 2),
     (p.width / 2, -(p.height / 2))]
  let corners := corners.map (fun cr => rotate_coords cr p.angle)
  let corners := corners.map (fun cr => (cr.1 + p.x, cr.2 + p.y))
  let corners := corners.map (fun cr => rotate_coords cr c.angle)
  let corners := corners.map (fun cr => (cr.1 + c.x, cr.2 + c.y))
  corners.map (fun cr => (cr.1 - xmin, cr.2 - ymin))

/-- Spec-side counter-clockwise rotation by an angle in degrees, written from
the claim's words (C3): the standard rotation matrix applied at
`deg·π/180` radians. -/
noncomputable def specCcwRotate (deg : ℝ) (pt : ℝ × ℝ) : ℝ × ℝ :=
  (Real.cos (deg * Real.pi / 180) * pt.1 - Real.sin (deg * Real.pi / 180) * pt.2,
   Real.sin (deg * Real.pi / 180) * pt.1 + Real.cos (deg * Real.pi / 180) * pt.2)

/-- Spec-side rotation with an optional angle: absent angle is the identity. -/
noncomputable def specRotOpt (angle : Option ℝ) (pt : ℝ × ℝ) : ℝ × ℝ :=
  match angle with
  | none => pt
  | some a => specCcwRotate a pt

/-- Spec-side transform pipeline of claim C3 for a single point: rotate by the
pad angle, translate by the pad position, rotate by the component angle,
translate by the component position, translate by `(-xmin, -ymin)`. -/
noncomputable def specTransform (xmin ymin : ℝ) (c : RComponent) (p : RPad)
    (pt : ℝ × ℝ) : ℝ × ℝ :=
  let s1 := specRotOpt p.angle pt
  let s2 := (s1.1 + p.x, s1.2 + p.y)
  let s3 := specRotOpt c.angle s2
  let s4 := (s3.1 + c.x, s3.2 + c.y)
  (s4.1 - xmin, s4.2 - ymin)

/-! ## Python float values and `float(str)` parsing

`getfloat` (lines 50-59) calls `float()` on an attribute string.  `PyFloat`
models the result: a finite value (an exact rational; IEEE rounding and the
overflow of huge literals to infinity are abstracted away) or one of the
special values `inf`, `-inf`, `nan`, which `float()` happily produces from
the strings "inf"/"infinity"/"nan" (case-insensitively, optionally signed). -/

inductive PyFloat where
  | finite (q : ℚ)
  | inf
  | ninf
  | nan
deriving DecidableEq

/-- Python `<` on floats: `nan` is incomparable with everything. -/
def pylt : PyFloat → PyFloat → Bool
  | .nan, _ => false
  | _, .nan => false
  | .ninf, .ninf => false
  | .ninf, _ => true
  | _, .ninf => false
  | .inf, _ => false
  | .finite _, .inf => true
  | .finite q, .finite r => decide (q < r)

/-- Python `min(a, b)`: keep `a` unless `b < a` (so `nan` semantics follow the
argument order, as in CPython). -/
def pymin (a b : PyFloat) : PyFloat := if pylt b a then b else a

/-- Python `max(a, b)`: keep `a` unless `a < b`. -/
def pymax (a b : PyFloat) : PyFloat := if pylt a b then b else a

/-- Python `min(a, b, c)` (left fold, as CPython iterates the arguments). -/
def pymin3 (a b c : PyFloat) : PyFloat := pymin (pymin a b) c

/-- Python `max(a, b, c)`. -/
def pymax3 (a b c : PyFloat) : PyFloat := pymax (pymax a b) c

/-- Python float subtraction (used for `width`/`height`, lines 99-100). -/
def pysub : PyFloat → PyFloat → PyFloat
  | .nan, _ => .nan
  | _, .nan => .nan
  | .finite q, .finite r => .finite (q - r)
  | .inf, .inf => .nan
  | .inf, _ => .inf
  | .ninf, .ninf => .nan
  | .ninf, _ => .ninf
  | .finite _, .inf => .ninf
  | .finite _, .ninf => .inf

/-- The whitespace characters stripped by `float()` and matched by the
regex class `\s` (ASCII portion; unicode whitespace is abstracted away). -/
def pyIsSpace (c : Char) : Bool :=
  c = ' ' || c = '\t' || c = '\n' || c = '\r' || c = '\x0b' || c = '\x0c'

/-- Numeric value of a list of decimal digit characters. -/
def digitsVal (ds : List Char) : ℕ :=
  ds.foldl (fun a c => 10 * a + (c.toNat - 48)) 0

/-- Consume the continuation of a Python `digitpart` after its first digit:
further digits, optionally separated by single underscores.  Returns the
digits collected (underscores dropped) and the unconsumed rest. -/
def dpAux : List Char → List Char × List Char
  | '_' :: c :: rest =>
    if c.isDigit then
      let (ds, r) := dpAux rest
      (c :: ds, r)
    else ([], '_' :: c :: rest)
  | c :: rest =>
    if c.isDigit then
      let (ds, r) := dpAux rest
      (c :: ds, r)
    else ([], c :: rest)
  | [] => ([], [])

/-- Parse a Python `digitpart` (at least one digit, single underscores allowed
between digits).  Returns the digit characters and the unconsumed rest. -/
def digitpart (cs : List Char) : Option (List Char × List Char) :=
  match cs with
  | c :: rest =>
    if c.isDigit then
      let (ds, r) := dpAux rest
      some (c :: ds, r)
    else none
  | [] => none

/-- Parse the mantissa of a Python float literal: `digits [. [digits]]` or
`. digits`; returns the exact rational value and the unconsumed rest. -/
def parseMantissa (cs : List Char) : Option (ℚ × List Char) :=
  match digitpart cs with
  | some (ds, r) =>
    match r with
    | '.' :: r2 =>
      match digitpart r2 with
      | some (fs, r3) =>
        some ((digitsVal ds : ℚ) + (digitsVal fs : ℚ) / (10 : ℚ) ^ fs.length, r3)
      | none => some ((digitsVal ds : ℚ), r2)
    | _ => some ((digitsVal ds : ℚ), r)
  | none =>
    match cs with
    | '.' :: r2 =>
      match digitpart r2 with
      | some (fs, r3) =>
        some ((digitsVal fs : ℚ) / (10 : ℚ) ^ fs.length, r3)
      | none => none
    | _ => none

/-- Parse an optional exponent part `([eE] [+-]? digits)?`; the rest must be
consumed entirely.  Returns the scaled value. -/
def parseExpPart (m : ℚ) (cs : List Char) : Option ℚ :=
  match cs with
  | [] => some m
  | e :: r2 =>
    if e = 'e' ∨ e = 'E' then
      let (neg, r3) : Bool × List Char :=
        match r2 with
        | '+' :: t => (false, t)
        | '-' :: t => (true, t)
        | t => (false, t)
      match digitpart r3 with
      | some (ds, r4) =>
        if r4 = [] then
          some (m * (10 : ℚ) ^ (if neg then -(digitsVal ds : ℤ) else (digitsVal ds : ℤ)))
        else none
      | none => none
    else none

/-- Parse a full numeric Python float literal body (no sign, no whitespace). -/
def pyNumLit (cs : List Char) : Option ℚ :=
  match parseMantissa cs with
  | none => none
  | some (m, r) => parseExpPart m r

/-- Model of Python `float(s)` for a string `s`: strip whitespace, take an
optional sign, then either a case-insensitive `inf`/`infinity`/`nan` or a
numeric literal.  Returns `none` exactly when `float()` raises `ValueError`. -/
def pyfloat? (s : String) : Option PyFloat :=
  let cs := (s.toList.dropWhile pyIsSpace)
  let cs := (cs.reverse.dropWhile pyIsSpace).reverse
  let (neg, cs2) : Bool × List Char :=
    match cs with
    | '+' :: t => (false, t)
    | '-' :: t => (true, t)
    | t => (false, t)
  let low := cs2.map Char.toLower
  if low = "inf".toList ∨ low = "infinity".toList then
    some (if neg then .ninf else .inf)
  else if low = "nan".toList then some .nan
  else
    match pyNumLit cs2 with
    | some q => some (.finite (if neg then -q else q))
    | none => none

/-! ## The two regexes (lines 11-12)

`angle_re = re.compile(r"^(M?)R(\d+)(?:\.\d+)?$")` and
`prefix_re = re.compile(r"\s*([A-Za-z]+)\s*\d+\s*$")`, both used through
`re.match` (anchored at the start).  In Python's default mode `$` matches at
the end of the string or just before a single trailing newline; `endOk`
captures that.  Since the character classes involved are pairwise disjoint,
maximal-munch parsing with `takeWhile`/`dropWhile` is equivalent to the
backtracking regex engine on these patterns. -/

/-- Python's `$` anchor (non-MULTILINE): end of input, or just before a
newline that is the last character. -/
def endOk (cs : List Char) : Bool := cs = [] || cs = ['\n']

/-- The part of `angle_re` after the optional mirror marker:
`R`, one or more digits, an optional `.`-plus-digits suffix, then `$`.
Returns the value of `m.group(2)`: the digit run before any fractional
suffix, i.e. the integer part only (lines 141, 168). -/
def parseRotCore (r0 : List Char) : Option ℕ :=
  match r0 with
  | [] => none
  | c :: r1 =>
    if c = 'R' then
      if r1.takeWhile Char.isDigit = [] then none
      else if endOk (r1.dropWhile Char.isDigit) then
        some (digitsVal (r1.takeWhile Char.isDigit))
      else if (r1.dropWhile Char.isDigit).head? = some '.' then
        if (r1.dropWhile Char.isDigit).tail.takeWhile Char.isDigit ≠ [] ∧
           endOk ((r1.dropWhile Char.isDigit).tail.dropWhile Char.isDigit) then
          some (digitsVal (r1.takeWhile Char.isDigit))
        else none
      else none
    else none

/-- Model of `re.match(angle_re, s)` (line 11), returning
`(mirror marker present, integer part of the degree value)` on success.
A string starting with `M` can only match with the mirror group filled, and
one not starting with `M` only with it empty, so the optional group needs no
backtracking. -/
def parseRot (s : String) : Option (Bool × ℕ) :=
  if s.toList.head? = some 'M' then
    (parseRotCore s.toList.tail).map (fun n => (true, n))
  else (parseRotCore s.toList).map (fun n => (false, n))

/-- Model of `re.match(prefix_re, compname)` (lines 12, 111-113), returning
`m.group(1)` (the alphabetic run) on success.  The pattern is
whitespace*, letters+, whitespace*, digits+, whitespace* to the end. -/
def pfxOfName (s : String) : Option String :=
  if (s.toList.dropWhile pyIsSpace).takeWhile Char.isAlpha = [] then none
  else if ((((s.toList.dropWhile pyIsSpace).dropWhile Char.isAlpha).dropWhile
      pyIsSpace).takeWhile Char.isDigit) = [] then none
  else if (((((s.toList.dropWhile pyIsSpace).dropWhile Char.isAlpha).dropWhile
      pyIsSpace).dropWhile Char.isDigit)).all pyIsSpace then
    some (String.mk ((s.toList.dropWhile pyIsSpace).takeWhile Char.isAlpha))
  else none

/-- Claim C5's stated descriptor grammar, written from the spec's words: an
optional mirror marker `M`, then `R`, then one or more digits, then
optionally `.` and a fractional part — nothing else. -/
def claimAngleOk (s : String) : Bool :=
  let (r0) : List Char :=
    match s.toList with
    | 'M' :: t => t
    | t => t
  match r0 with
  | 'R' :: r1 =>
    let ds := r1.takeWhile Char.isDigit
    let r2 := r1.dropWhile Char.isDigit
    if ds = [] then false
    else if r2 = [] then true
    else
      match r2 with
      | '.' :: r2' => r2'.takeWhile Char.isDigit = r2' && r2' ≠ []
      | _ => false
  | _ => false

/-- Claim C6's stated rule, written from the spec's words: the name-prefix is
the leading run of alphabetic characters when it is immediately followed by
(optionally whitespace then) digits at the end of the name, absent
otherwise. -/
def claimPfx (s : String) : Option String :=
  let ls := s.toList.takeWhile Char.isAlpha
  let rest := s.toList.dropWhile Char.isAlpha
  if ls = [] then none
  else
    let r3 := rest.dropWhile pyIsSpace
    if r3 ≠ [] ∧ r3.all Char.isDigit then some (String.mk ls) else none

/-- Claim C7's stated acceptance condition, written from the spec's words:
the attribute string denotes a finite decimal number, i.e. it parses to a
finite float value. -/
def denotesFiniteDecimal (s : String) : Bool :=
  match pyfloat? s with
  | some (.finite _) => true
  | _ => false

/-! ## Board model (lines 23-48)

`Pad`, `Component`, `BoardInfo` with the same field names where Lean allows
them (`prefix` is unavailable in Lean, so the component's name-prefix field
is called `pfx`).  The `uid` field of `Component` models Python object
identity: each created component object is distinct, which is what list
membership (`c in val_cs`) and "appears exactly once" compare by.  The
dictionary indices are modelled as insertion-ordered association lists, which
is exactly the observable behaviour of Python 3.7+ dicts. -/

structure Pad where
  x : PyFloat
  y : PyFloat
  width : PyFloat
  height : PyFloat
  angle : Option ℚ
deriving DecidableEq

structure Component where
  uid : ℕ
  x : PyFloat
  y : PyFloat
  name : String
  pfx : Option String
  value : String
  pads : List Pad
  angle : Option ℚ
  layer : Option String
deriving DecidableEq

/-- Lookup in an insertion-ordered association list (Python `dict.get`). -/
def idxLookup {κ α : Type} [DecidableEq κ] (k : κ) : List (κ × α) → Option α
  | [] => none
  | kv :: rest => if k = kv.1 then some kv.2 else idxLookup k rest

/-- The bucket for key `k`, defaulting to the empty list. -/
def bucket {κ : Type} [DecidableEq κ] (k : κ) (idx : List (κ × List Component)) :
    List Component :=
  (idxLookup k idx).getD []

/-- Append `c` to the bucket of `k`, creating the bucket if absent — the
`if key in d: d[key].append(c) else: d[key] = [c]` pattern of lines
190-203. -/
def idxInsert {κ : Type} [DecidableEq κ] (k : κ) (c : Component)
    (idx : List (κ × List Component)) : List (κ × List Component) :=
  if (idxLookup k idx).isSome then
    idx.map (fun kv => if kv.1 = k then (kv.1, kv.2 ++ [c]) else kv)
  else idx ++ [(k, [c])]

/-- Overwriting insert for `bi.name_to_component[compname] = com` (line
189). -/
def nameInsert (n : String) (c : Component) (m : List (String × Component)) :
    List (String × Component) :=
  if (idxLookup n m).isSome then
    m.map (fun kv => if kv.1 = n then (kv.1, c) else kv)
  else m ++ [(n, c)]

structure BoardInfo where
  dimension_layer_number : String
  top_layer : String
  bottom_layer : String
  xmin : PyFloat
  xmax : PyFloat
  ymin : PyFloat
  ymax : PyFloat
  width : PyFloat
  height : PyFloat
  value_to_components : List (String × List Component)
  name_to_component : List (String × Component)
  layer_to_components : List (Option String × List Component)
  layer_value_to_components : List ((Option String × String) × List Component)
  components : List Component
deriving DecidableEq

/-! ## The input document (section 6 of the spec)

The XML tree is flattened into the four sequences the code's `//`-style
xpath queries would collect, in document order.  Every attribute is an
optional string, since `elem.get` returns a string or `None`. -/

deriving instance DecidableEq for Except

structure LayerDef where
  name : Option String
  number : Option String
deriving DecidableEq

structure Wire where
  layer : Option String
  x1 : Option String
  y1 : Option String
  x2 : Option String
  y2 : Option String
deriving DecidableEq

structure Smd where
  layer : Option String
  x : Option String
  y : Option String
  dx : Option String
  dy : Option String
  rot : Option String
deriving DecidableEq

structure Package where
  name : Option String
  smds : List Smd
deriving DecidableEq

structure Elem where
  name : Option String
  value : Option String
  package : Option String
  x : Option String
  y : Option String
  rot : Option String
deriving DecidableEq

structure Document where
  layers : List LayerDef
  wires : List Wire
  packages : List Package
  elements : List Elem
deriving DecidableEq

/-! ## `getfloat` and the extractor `get_board_info` (lines 50-206)

The extractor is written with explicit matches instead of `do`-notation so
that proofs can follow the source's control flow case by case.  The source
mutates a `BoardInfo` object; here the updates are threaded explicitly, which
is observationally the same because nothing reads the object mid-loop.
Source error messages are kept verbatim (apostrophes written `\x27`). -/

/-- Model of `getfloat(elem, name)` (lines 50-59).  The first argument is the
value of `elem.get(name)`. -/
def getfloat (f : Option String) (name : String) : Except String PyFloat :=
  match f with
  | none => .error ("Expecting attribute \x27" ++ name ++ "\x27")
  | some s =>
    match pyfloat? s with
    | none => .error ("Non-float value for attribute \x27" ++ name ++ "\x27")
    | some v => .ok v

/-- The per-wire bounding-box fold of lines 88-94: parse `x1`, `x2`, `y1`,
`y2` of each wire (the source re-reads the attributes for the max lines, with
identical results) and extend the running `(xmin, ymin, xmax, ymax)`. -/
def boundsFold : List Wire → PyFloat × PyFloat × PyFloat × PyFloat →
    Except String (PyFloat × PyFloat × PyFloat × PyFloat)
  | [], acc => .ok acc
  | w :: rest, (xmin, ymin, xmax, ymax) =>
    match getfloat w.x1 "x1" with
    | .error msg => .error msg
    | .ok x1 =>
    match getfloat w.x2 "x2" with
    | .error msg => .error msg
    | .ok x2 =>
    match getfloat w.y1 "y1" with
    | .error msg => .error msg
    | .ok y1 =>
    match getfloat w.y2 "y2" with
    | .error msg => .error msg
    | .ok y2 =>
      boundsFold rest
        (pymin3 xmin x1 x2, pymin3 ymin y1 y2, pymax3 xmax x1 x2, pymax3 ymax y1 y2)

/-- The pad loop of lines 144-175.  Threads `complayer` (set from the first
pad, with the mirror swap of lines 150-156 applied there and only there) and
the accumulated `ourpads`. -/
def processPads (top bottom : String) (mirrored : Bool) :
    List Smd → Option String → List Pad → Except String (Option String × List Pad)
  | [], complayer, acc => .ok (complayer, acc)
  | p :: rest, complayer, acc =>
    match p.layer with
    | none => .error "Could not get pad layer"
    | some pl =>
      let complayer' : Option String :=
        match complayer with
        | none =>
          some (if mirrored then
                  (if pl = top then bottom else if pl = bottom then top else pl)
                else pl)
        | some l => some l
      match getfloat p.x "x" with
      | .error msg => .error msg
      | .ok x =>
      match getfloat p.y "y" with
      | .error msg => .error msg
      | .ok y =>
      match (match p.rot with
             | none => Except.ok (none : Option ℚ)
             | some r =>
               match parseRot r with
               | none => Except.error "Could not parse angle"
               | some mn => Except.ok (some (mn.2 : ℚ))) with
      | .error msg => .error msg
      | .ok pangle =>
      match getfloat p.dx "dx" with
      | .error msg => .error msg
      | .ok w =>
      match getfloat p.dy "dy" with
      | .error msg => .error msg
      | .ok h =>
        processPads top bottom mirrored rest complayer'
          (acc ++ [{ x := x, y := y, width := w, height := h, angle := pangle }])

/-- One element of the loop of lines 105-187.  Returns `none` for the
skipped no-pad case (line 127-129; the source also prints a message, a side
effect not modelled).  `uid` is the identity tag of the component object that
would be created. -/
def processElement (doc : Document) (top bottom : String) (uid : ℕ) (e : Elem) :
    Except String (Option Component) :=
  match e.name with
  | none => .error "Component without name"
  | some compname =>
    if compname = "" then .error "Component without name"
    else
      let compprefix := pfxOfName compname
      match e.value with
      | none => .error "Component without value"
      | some compvalue =>
      match e.package with
      | none => .error "Component without package"
      | some package_name =>
      match (doc.packages.filter (fun p => decide (p.name = some package_name))).head? with
      | none => .error "Could not find package"
      | some package =>
        let ppads := package.smds
        if ppads.isEmpty then .ok none
        else
          match getfloat e.x "x" with
          | .error msg => .error msg
          | .ok compx =>
          match getfloat e.y "y" with
          | .error msg => .error msg
          | .ok compy =>
          match (match e.rot with
                 | none => Except.ok ((none : Option ℚ), false)
                 | some r =>
                   match parseRot r with
                   | none => Except.error ("Could not parse angle \x27" ++ r ++ "\x27")
                   | some mn => Except.ok (some (mn.2 : ℚ), mn.1)) with
          | .error msg => .error msg
          | .ok (eangle, mirrored) =>
          match processPads top bottom mirrored ppads none [] with
          | .error msg => .error msg
          | .ok (complayer, ourpads) =>
            .ok (some { uid := uid, x := compx, y := compy, name := compname,
                        pfx := compprefix, value := compvalue, pads := ourpads,
                        angle := eangle, layer := complayer })

/-- The index updates of lines 187-203 plus the append to `ourcomps`. -/
def addComponent (bi : BoardInfo) (com : Component) : BoardInfo :=
  { bi with
    name_to_component := nameInsert com.name com bi.name_to_component,
    value_to_components := idxInsert com.value com bi.value_to_components,
    layer_to_components := idxInsert com.layer com bi.layer_to_components,
    layer_value_to_components :=
      idxInsert (com.layer, com.value) com bi.layer_value_to_components,
    components := bi.components ++ [com] }

/-- The element loop of lines 105-205.  `uid` counts the components created
so far; a skipped element creates no object. -/
def processElements (doc : Document) (top bottom : String) :
    List Elem → ℕ → BoardInfo → Except String BoardInfo
  | [], _, bi => .ok bi
  | e :: rest, uid, bi =>
    match processElement doc top bottom uid e with
    | .error msg => .error msg
    | .ok none => processElements doc top bottom rest uid bi
    | .ok (some com) => processElements doc top bottom rest (uid + 1) (addComponent bi com)

/-- Model of `get_board_info` (lines 62-206).  Note line 85: the wires are
filtered by the literal layer string `"20"`, not by the Dimension layer
number just read (the source stores that number at line 72 and never reads it
again; its Python default there is the integer `20`, also never read). -/
def get_board_info (doc : Document) : Except String BoardInfo :=
  match (doc.layers.filter (fun l => decide (l.name = some "Dimension"))).head? with
  | none => .error "Could not find Dimension layer def"
  | some d0 =>
  match (doc.layers.filter (fun l => decide (l.name = some "Top"))).head? with
  | none => .error "Could not find Top layer def"
  | some t0 =>
  match (doc.layers.filter (fun l => decide (l.name = some "Bottom"))).head? with
  | none => .error "Could not find Bottom layer def"
  | some b0 =>
    let dln := d0.number.getD "20"
    let tl := t0.number.getD "1"
    let bl := b0.number.getD "16"
    let ws := doc.wires.filter (fun w => decide (w.layer = some "20"))
    if ws.length < 2 then .error "Error processing dimension layer wires"
    else
      match boundsFold ws (.inf, .inf, .ninf, .ninf) with
      | .error msg => .error msg
      | .ok (xmin, ymin, xmax, ymax) =>
        processElements doc tl bl doc.elements 0
          { dimension_layer_number := dln, top_layer := tl, bottom_layer := bl,
            xmin := xmin, xmax := xmax, ymin := ymin, ymax := ymax,
            width := pysub xmax xmin, height := pysub ymax ymin,
            value_to_components := [], name_to_component := [],
            layer_to_components := [], layer_value_to_components := [],
            components := [] }

/-! ## Sheet layout driver (lines 224-264)

A `Page` records what one `cv.showPage()`-delimited page shows: the value and
sorted name list of its heading (line 262), the components whose pads are
drawn in the muted tone and those drawn in the highlight tone
(`render_components`, lines 224-233: the full same-layer list minus `val_cs`
muted first, then `val_cs` highlighted).  Canvas geometry (page size, font,
text position) is not modelled. -/

structure Page where
  value : String
  names : List String
  muted : List Component
  highlighted : List Component
deriving DecidableEq

/-- The prefix partition of lines 248-253: group `val_cs` by the `pfx` field,
in first-seen order. -/
def pfxGroups (val_cs : List Component) : List (Option String × List Component) :=
  val_cs.foldl (fun g vc => idxInsert vc.pfx vc g) []

/-- Python's stable ascending sort of the heading names (line 259). -/
def sortNames (ns : List String) : List String :=
  ns.insertionSort (fun a b => a ≤ b)

/-- The pages emitted for one value key (lines 243-264): nothing if the
`(layer, value)` bucket is absent, otherwise one page per prefix group of the
bucket.  Note line 263: every page of the value highlights the whole
`val_cs` bucket, not just the current prefix group. -/
def pagesForValue (bi : BoardInfo) (layer : String) (val : String) : List Page :=
  match idxLookup (some layer, val) bi.layer_value_to_components with
  | none => []
  | some val_cs =>
    (pfxGroups val_cs).map (fun pg =>
      { value := val,
        names := sortNames (pg.2.map (fun c => c.name)),
        muted := ((idxLookup (some layer) bi.layer_to_components).getD []).filter
          (fun c => decide (c ∉ val_cs)),
        highlighted := val_cs })

/-- Model of `layout_by_same_value(cv, bi, layer)` (lines 235-264) as the
list of pages it emits: iterate the keys of `value_to_components` in
insertion order and emit the pages of each value. -/
def layout_by_same_value (bi : BoardInfo) (layer : String) : List Page :=
  (bi.value_to_components.map Prod.fst).flatMap (pagesForValue bi layer)

/-! ## Example documents used by witnesses and counterexamples -/

/-- A board whose "Dimension" layer definition declares number `"21"` and
whose two outline wires are tagged `layer="21"` accordingly. -/
def exDocC1 : Document :=
  { layers := [{ name := some "Dimension", number := some "21" },
               { name := some "Top", number := some "1" },
               { name := some "Bottom", number := some "16" }],
    wires := [{ layer := some "21", x1 := some "0", y1 := some "0",
                x2 := some "10", y2 := some "0" },
              { layer := some "21", x1 := some "0", y1 := some "0",
                x2 := some "0", y2 := some "10" }],
    packages := [],
    elements := [] }

/-- A minimal well-formed board: one 100×50 outline, one single-pad package,
one component `R1` of value `10k` on layer `1`. -/
def exDoc10 : Document :=
  { layers := [{ name := some "Top", number := some "1" },
               { name := some "Bottom", number := some "16" },
               { name := some "Dimension", number := some "20" }],
    wires := [{ layer := some "20", x1 := some "0", y1 := some "0",
                x2 := some "100", y2 := some "0" },
              { layer := some "20", x1 := some "0", y1 := some "0",
                x2 := some "0", y2 := some "50" }],
    packages := [{ name := some "0402",
                   smds := [{ layer := some "1", x := some "0", y := some "0",
                              dx := some "1", dy := some "0.5", rot := none }] }],
    elements := [{ name := some "R1", value := some "10k", package := some "0402",
                   x := some "0", y := some "0", rot := none }] }

/-! ## Geometry lemmas -/

lemma rotate_coords_some_eq_spec (a : ℝ) (pt : ℝ × ℝ) :
    rotate_coords pt (some a) = specCcwRotate a pt := by
  simp only [rotate_coords, specCcwRotate]
  have h : a / 180 * Real.pi = a * Real.pi / 180 := by ring
  rw [h]
  exact Prod.ext (by ring) (by ring)

lemma rotate_coords_eq_specRotOpt (ang : Option ℝ) (pt : ℝ × ℝ) :
    rotate_coords pt ang = specRotOpt ang pt := by
  cases ang with
  | none => rfl
  | some a => exact rotate_coords_some_eq_spec a pt

lemma rotate_coords_add360 (a : ℝ) (pt : ℝ × ℝ) :
    rotate_coords pt (some (a + 360)) = rotate_coords pt (some a) := by
  have hc : Real.cos ((a + 360) / 180 * Real.pi) = Real.cos (a / 180 * Real.pi) := by
    rw [show (a + 360) / 180 * Real.pi = a / 180 * Real.pi + 2 * Real.pi by ring,
        Real.cos_add_two_pi]
  have hs : Real.sin ((a + 360) / 180 * Real.pi) = Real.sin (a / 180 * Real.pi) := by
    rw [show (a + 360) / 180 * Real.pi = a / 180 * Real.pi + 2 * Real.pi by ring,
        Real.sin_add_two_pi]
  simp only [rotate_coords, hc, hs]

/-! ## Claim theorems -/

/-- C1: the claim says the bounding-box segments are the wires tagged with
the dimension layer id declared by the layer definition named "Dimension".
The code instead filters wires by the literal string `"20"` (line 85) and
never reads the stored `dimension_layer_number` (line 72).  On `exDocC1` the
declared dimension layer number is `"21"` and two wires carry that tag, so
per the claim extraction should succeed with a bounding box over those wires;
the code instead fails with "Error processing dimension layer wires". -/
theorem c1_dimension_wires_hardcoded :
    get_board_info exDocC1 = .error "Error processing dimension layer wires" ∧
    (exDocC1.layers.filter (fun l => decide (l.name = some "Dimension"))).head? =
      some { name := some "Dimension", number := some "21" } ∧
    (exDocC1.wires.filter (fun w => decide (w.layer = some "21"))).length = 2 :=
  ⟨rfl, rfl, rfl⟩

/-- C3: the four polygon corner points emitted by the pad renderer are
exactly the pad-local corners `(±width/2, ±height/2)` pushed through the
claimed pipeline — rotate counter-clockwise by the pad angle, translate by
the pad position, rotate counter-clockwise by the component angle, translate
by the component position, translate by `(-xmin, -ymin)` — and rotation by an
absent angle is the identity on the point. -/
theorem c3_pad_corner_pipeline (xmin ymin : ℝ) (c : RComponent) (p : RPad) :
    render_component_pad_corners xmin ymin c p =
      [specTransform xmin ymin c p (-(p.width / 2), -(p.height / 2)),
       specTransform xmin ymin c p (-(p.width / 2), p.height / 2),
       specTransform xmin ymin c p (p.width / 2, p.height / 2),
       specTransform xmin ymin c p (p.width / 2, -(p.height / 2))] ∧
    ∀ pt : ℝ × ℝ, rotate_coords pt none = pt := by
  refine ⟨?_, fun pt => rfl⟩
  simp only [render_component_pad_corners, specTransform, List.map_cons, List.map_nil,
    rotate_coords_eq_specRotOpt]

/-- C9: the corner coordinates produced by the full transform pipeline are
unchanged when 360 degrees is added to the pad's rotation angle, or to the
component's rotation angle. -/
theorem c9_rotation_periodic (xmin ymin cx cy px py w h a : ℝ)
    (ca pa : Option ℝ) :
    render_component_pad_corners xmin ymin ⟨cx, cy, ca⟩ ⟨px, py, w, h, some (a + 360)⟩ =
      render_component_pad_corners xmin ymin ⟨cx, cy, ca⟩ ⟨px, py, w, h, some a⟩ ∧
    render_component_pad_corners xmin ymin ⟨cx, cy, some (a + 360)⟩ ⟨px, py, w, h, pa⟩ =
      render_component_pad_corners xmin ymin ⟨cx, cy, some a⟩ ⟨px, py, w, h, pa⟩ := by
  constructor <;>
    simp only [render_component_pad_corners, List.map_cons, List.map_nil,
      rotate_coords_add360]

/-! ## List span helpers -/

lemma span_append {α : Type} (p : α → Bool) (xs ys : List α)
    (hx : ∀ a ∈ xs, p a = true) (hy : ∀ a ∈ ys.head?, p a = false) :
    (xs ++ ys).takeWhile p = xs ∧ (xs ++ ys).dropWhile p = ys := by
  induction xs with
  | nil =>
    simp only [List.nil_append]
    cases ys with
    | nil => simp
    | cons b t =>
      have hb := hy b (by simp)
      simp [List.takeWhile_cons, List.dropWhile_cons, hb]
  | cons x xt ih =>
    have hpx := hx x (List.mem_cons_self x xt)
    have ih' := ih (fun a ha => hx a (List.mem_cons_of_mem _ ha))
    simp [List.takeWhile_cons, List.dropWhile_cons, hpx, ih'.1, ih'.2]

lemma endOk_iff (cs : List Char) : endOk cs = true ↔ cs = [] ∨ cs = ['\n'] := by
  simp [endOk]

/-! ## Claim C5: the rotation descriptor grammar -/

/-- Declarative shape of a descriptor tail accepted by `parseRotCore`, with
the value pinned to the digit run: `R`, a nonempty digit run `ds`, an
optional fraction `.fd`, and an optional single trailing newline (which
Python's `$` anchor accepts just before the end). -/
def AngleShapeCore (r0 : List Char) (n : ℕ) : Prop :=
  ∃ ds fr nl : List Char,
    r0 = 'R' :: (ds ++ fr ++ nl) ∧
    ds ≠ [] ∧ (∀ c ∈ ds, c.isDigit = true) ∧
    n = digitsVal ds ∧
    (fr = [] ∨ ∃ fd, fr = '.' :: fd ∧ fd ≠ [] ∧ ∀ c ∈ fd, c.isDigit = true) ∧
    (nl = [] ∨ nl = ['\n'])

/-- Declarative shape of a full rotation descriptor: an optional mirror
marker `M` (present exactly when `mir` is true), then a tail of the above
shape. -/
def AngleShape (s : String) (mir : Bool) (n : ℕ) : Prop :=
  ∃ r0, s.toList = (if mir then ['M'] else []) ++ r0 ∧ AngleShapeCore r0 n

lemma parseRotCore_iff (r0 : List Char) (n : ℕ) :
    parseRotCore r0 = some n ↔ AngleShapeCore r0 n := by
  constructor
  · intro h
    match r0 with
    | [] => simp [parseRotCore] at h
    | c :: r1 =>
      by_cases hc : c = 'R'
      · subst hc
        rw [parseRotCore, if_pos rfl] at h
        by_cases hds : r1.takeWhile Char.isDigit = []
        · rw [if_pos hds] at h; exact absurd h (by simp)
        · rw [if_neg hds] at h
          have hsplit := List.takeWhile_append_dropWhile (p := Char.isDigit) (l := r1)
          by_cases hend : endOk (r1.dropWhile Char.isDigit) = true
          · rw [if_pos hend] at h
            refine ⟨r1.takeWhile Char.isDigit, [], r1.dropWhile Char.isDigit, ?_, hds,
              fun c hcm => List.mem_takeWhile_imp hcm, ?_, Or.inl rfl, ?_⟩
            · simp [hsplit]
            · exact (Option.some_injective _ h).symm
            · exact (endOk_iff _).mp hend
          · rw [if_neg hend] at h
            by_cases hdot : (r1.dropWhile Char.isDigit).head? = some '.'
            · rw [if_pos hdot] at h
              match hr2 : r1.dropWhile Char.isDigit with
              | [] => rw [hr2] at hdot; exact absurd hdot (by simp)
              | c2 :: r2' =>
                rw [hr2] at hdot h
                have hc2 : c2 = '.' := by simpa using hdot
                subst hc2
                simp only [List.tail_cons] at h
                by_cases hcond : r2'.takeWhile Char.isDigit ≠ [] ∧
                    endOk (r2'.dropWhile Char.isDigit) = true
                · rw [if_pos hcond] at h
                  refine ⟨r1.takeWhile Char.isDigit, '.' :: r2'.takeWhile Char.isDigit,
                    r2'.dropWhile Char.isDigit, ?_, hds,
                    fun c hcm => List.mem_takeWhile_imp hcm, ?_, ?_, ?_⟩
                  · have h2 := List.takeWhile_append_dropWhile (p := Char.isDigit) (l := r2')
                    simp only [List.append_assoc, List.cons_append]
                    rw [h2, ← hr2, hsplit]
                  · exact (Option.some_injective _ h).symm
                  · exact Or.inr ⟨r2'.takeWhile Char.isDigit, rfl, hcond.1,
                      fun c hcm => List.mem_takeWhile_imp hcm⟩
                  · exact (endOk_iff _).mp hcond.2
                · rw [if_neg hcond] at h; exact absurd h (by simp)
            · rw [if_neg hdot] at h; exact absurd h (by simp)
      · simp [parseRotCore, hc] at h
  · rintro ⟨ds, fr, nl, rfl, hds, hdig, rfl, hfr, hnl⟩
    have hheadfrnl : ∀ a ∈ (fr ++ nl).head?, Char.isDigit a = false := by
      rcases hfr with rfl | ⟨fd, rfl, hfd, hfddig⟩
      · rcases hnl with rfl | rfl
        · simp
        · intro a ha; simp at ha; subst ha; decide
      · intro a ha; simp at ha; subst ha; decide
    have hspan := span_append Char.isDigit ds (fr ++ nl) hdig hheadfrnl
    rw [parseRotCore]
    simp only [List.append_assoc]
    rw [if_pos (by trivial), hspan.1, hspan.2, if_neg hds]
    rcases hfr with rfl | ⟨fd, rfl, hfd, hfddig⟩
    · have hok : endOk ([] ++ nl) = true := by
        rcases hnl with rfl | rfl <;> simp [endOk]
      rw [if_pos hok]
    · have hnotend : ¬ endOk ('.' :: fd ++ nl) = true := by
        rw [endOk_iff]
        rintro (habs | habs)
        · simp at habs
        · rw [List.cons_append] at habs
          have := List.head_eq_of_cons_eq habs
          exact absurd this (by decide)
      rw [if_neg hnotend]
      have hdot : (('.' :: fd ++ nl)).head? = some '.' := by simp
      rw [if_pos hdot]
      have hheadnl : ∀ a ∈ nl.head?, Char.isDigit a = false := by
        rcases hnl with rfl | rfl
        · simp
        · intro a ha; simp at ha; subst ha; decide
      have hspan2 := span_append Char.isDigit fd nl hfddig hheadnl
      have htail : ('.' :: fd ++ nl).tail = fd ++ nl := by simp
      rw [htail, hspan2.1, hspan2.2]
      have hok : endOk nl = true := by rcases hnl with rfl | rfl <;> simp [endOk]
      rw [if_pos ⟨hfd, hok⟩]

/-- C5 (amended): the element rotation descriptor parse succeeds on exactly
the strings of the shape — optional `M`, `R`, one or more digits, optional
`.`-plus-fractional-digits, and (beyond the claim as stated) an optional
single trailing newline, which Python's `$` anchor also accepts; the angle
value is the integer part only, and the mirrored flag is set iff the `M`
marker is present. -/
theorem c5_descriptor_grammar (s : String) (mir : Bool) (n : ℕ) :
    parseRot s = some (mir, n) ↔ AngleShape s mir n := by
  constructor
  · intro h
    rw [parseRot] at h
    by_cases hM : s.toList.head? = some 'M'
    · rw [if_pos hM] at h
      match hcore : parseRotCore s.toList.tail with
      | none => rw [hcore] at h; exact absurd h (by simp)
      | some m =>
        rw [hcore] at h
        have h' : ((true, m) : Bool × ℕ) = (mir, n) := Option.some_injective _ h
        have hmir : mir = true := (Prod.mk.injEq .. ▸ h').1.symm
        have hn : n = m := (Prod.mk.injEq .. ▸ h').2.symm
        subst hmir; subst hn
        refine ⟨s.toList.tail, ?_, (parseRotCore_iff _ _).mp hcore⟩
        have : s.toList = 'M' :: s.toList.tail := by
          cases hl : s.toList with
          | nil => rw [hl] at hM; exact absurd hM (by simp)
          | cons a t =>
            rw [hl] at hM
            have : a = 'M' := by simpa using hM
            simp [this]
        simpa using this
    · rw [if_neg hM] at h
      match hcore : parseRotCore s.toList with
      | none => rw [hcore] at h; exact absurd h (by simp)
      | some m =>
        rw [hcore] at h
        have h' : ((false, m) : Bool × ℕ) = (mir, n) := Option.some_injective _ h
        have hmir : mir = false := (Prod.mk.injEq .. ▸ h').1.symm
        have hn : n = m := (Prod.mk.injEq .. ▸ h').2.symm
        subst hmir; subst hn
        exact ⟨s.toList, by simp, (parseRotCore_iff _ _).mp hcore⟩
  · rintro ⟨r0, hsplit, hcore⟩
    have hsome := (parseRotCore_iff r0 n).mpr hcore
    obtain ⟨ds, fr, nl, hr0, -⟩ := hcore
    cases mir with
    | true =>
      rw [if_pos rfl, List.singleton_append] at hsplit
      rw [parseRot, hsplit]
      simp only [List.head?_cons, List.tail_cons]
      rw [if_pos (by trivial), hsome]
      rfl
    | false =>
      rw [if_neg (by simp), List.nil_append] at hsplit
      rw [parseRot, hsplit, hr0]
      simp only [List.head?_cons]
      rw [if_neg (by simp), ← hr0, hsome]
      rfl

/-- C5 counterexample: the descriptor `"R90\n"` (a trailing newline, e.g.
from a `&#10;` character reference in the attribute) is accepted by the code
with angle 90, yet it does not match the claim's stated grammar, under which
it should raise a BadAngle error. -/
theorem c5_counterexample :
    parseRot "R90\n" = some (false, 90) ∧ claimAngleOk "R90\n" = false := by
  decide

/-- C5 witness: the amended grammar at a concrete descriptor. -/
theorem c5_witness : AngleShape "MR45.9" true 45 :=
  (c5_descriptor_grammar "MR45.9" true 45).mp (by decide)

/-! ## Claim C6: name-prefix extraction -/

lemma space_not_alpha (c : Char) (h : pyIsSpace c = true) : c.isAlpha = false := by
  simp only [pyIsSpace, Bool.or_eq_true, decide_eq_true_eq] at h
  rcases h with ((((rfl | rfl) | rfl) | rfl) | rfl) | rfl <;> decide

lemma space_not_digit (c : Char) (h : pyIsSpace c = true) : c.isDigit = false := by
  simp only [pyIsSpace, Bool.or_eq_true, decide_eq_true_eq] at h
  rcases h with ((((rfl | rfl) | rfl) | rfl) | rfl) | rfl <;> decide

lemma alpha_not_space (c : Char) (h : c.isAlpha = true) : pyIsSpace c = false := by
  cases hs : pyIsSpace c
  · rfl
  · rw [space_not_alpha c hs] at h; exact absurd h (by simp)

lemma digit_not_space (c : Char) (h : c.isDigit = true) : pyIsSpace c = false := by
  cases hs : pyIsSpace c
  · rfl
  · rw [space_not_digit c hs] at h; exact absurd h (by simp)

lemma digit_not_alpha (c : Char) (h : c.isDigit = true) : c.isAlpha = false := by
  unfold Char.isDigit at h
  unfold Char.isAlpha Char.isUpper Char.isLower
  simp only [Bool.and_eq_true, decide_eq_true_eq, ge_iff_le] at h
  simp only [Bool.or_eq_false_iff, Bool.and_eq_false_iff, decide_eq_false_iff_not,
    ge_iff_le, not_le]
  have h1 : c.val.toNat ≤ 57 := h.2
  refine ⟨Or.inl fun hx => ?_, Or.inl fun hx => ?_⟩
  · have hx' : (65 : ℕ) ≤ c.val.toNat := hx
    omega
  · have hx' : (97 : ℕ) ≤ c.val.toNat := hx
    omega

/-- Declarative shape of a name accepted by `prefix_re`: optional leading
whitespace (beyond the claim as stated), an alphabetic run, optional
whitespace, a digit run, and optional trailing whitespace (also beyond the
claim as stated); the extracted name-prefix is the alphabetic run. -/
def PfxShape (s p : String) : Prop :=
  ∃ w1 ls w2 ds w3 : List Char,
    s.toList = w1 ++ (ls ++ (w2 ++ (ds ++ w3))) ∧
    (∀ c ∈ w1, pyIsSpace c = true) ∧ (∀ c ∈ w2, pyIsSpace c = true) ∧
    (∀ c ∈ w3, pyIsSpace c = true) ∧
    ls ≠ [] ∧ (∀ c ∈ ls, c.isAlpha = true) ∧
    ds ≠ [] ∧ (∀ c ∈ ds, c.isDigit = true) ∧
    p = String.mk ls

/-- C6 (amended): the name-prefix parse succeeds on exactly the names of the
shape — optional whitespace, a leading alphabetic run, optional whitespace,
digits, optional trailing whitespace (the regex tolerates surrounding
whitespace, which the claim as stated does not) — yielding the alphabetic
run; the claim's four examples behave as stated. -/
theorem c6_prefix_rule :
    (∀ s p, pfxOfName s = some p ↔ PfxShape s p) ∧
    pfxOfName "R101" = some "R" ∧ pfxOfName "C1" = some "C" ∧
    pfxOfName "U" = none ∧ pfxOfName "IC 42" = some "IC" := by
  refine ⟨fun s p => ⟨?_, ?_⟩, by decide, by decide, by decide, by decide⟩
  · intro h
    rw [pfxOfName] at h
    by_cases h1 : (s.toList.dropWhile pyIsSpace).takeWhile Char.isAlpha = []
    · rw [if_pos h1] at h; exact absurd h (by simp)
    · rw [if_neg h1] at h
      by_cases h2 : ((((s.toList.dropWhile pyIsSpace).dropWhile Char.isAlpha).dropWhile
          pyIsSpace).takeWhile Char.isDigit) = []
      · rw [if_pos h2] at h; exact absurd h (by simp)
      · rw [if_neg h2] at h
        by_cases h3 : (((((s.toList.dropWhile pyIsSpace).dropWhile Char.isAlpha).dropWhile
            pyIsSpace).dropWhile Char.isDigit)).all pyIsSpace
        · rw [if_pos h3] at h
          have hp := (Option.some_injective _ h).symm
          refine ⟨s.toList.takeWhile pyIsSpace,
            (s.toList.dropWhile pyIsSpace).takeWhile Char.isAlpha,
            ((s.toList.dropWhile pyIsSpace).dropWhile Char.isAlpha).takeWhile pyIsSpace,
            (((s.toList.dropWhile pyIsSpace).dropWhile Char.isAlpha).dropWhile
              pyIsSpace).takeWhile Char.isDigit,
            (((s.toList.dropWhile pyIsSpace).dropWhile Char.isAlpha).dropWhile
              pyIsSpace).dropWhile Char.isDigit,
            ?_, fun c hc => List.mem_takeWhile_imp hc,
            fun c hc => List.mem_takeWhile_imp hc,
            fun c hc => (List.all_eq_true.mp h3) c hc,
            h1, fun c hc => List.mem_takeWhile_imp hc,
            h2, fun c hc => List.mem_takeWhile_imp hc, hp⟩
          rw [List.takeWhile_append_dropWhile, List.takeWhile_append_dropWhile,
            List.takeWhile_append_dropWhile, List.takeWhile_append_dropWhile]
        · rw [if_neg h3] at h; exact absurd h (by simp)
  · rintro ⟨w1, ls, w2, ds, w3, hsplit, hw1, hw2, hw3, hls, hlsalpha, hds, hdsdig, rfl⟩
    obtain ⟨a, ls', rfl⟩ : ∃ a t, ls = a :: t := by
      cases ls with
      | nil => exact absurd rfl hls
      | cons a t => exact ⟨a, t, rfl⟩
    obtain ⟨d, ds', rfl⟩ : ∃ a t, ds = a :: t := by
      cases ds with
      | nil => exact absurd rfl hds
      | cons a t => exact ⟨a, t, rfl⟩
    have ha : a.isAlpha = true := hlsalpha a (by simp)
    have hd : d.isDigit = true := hdsdig d (by simp)
    have e1 := span_append pyIsSpace w1 ((a :: ls') ++ (w2 ++ ((d :: ds') ++ w3))) hw1
      (by intro x hx; simp at hx; subst hx; exact alpha_not_space a ha)
    have e2 := span_append Char.isAlpha (a :: ls') (w2 ++ ((d :: ds') ++ w3)) hlsalpha
      (by
        intro x hx
        cases w2 with
        | nil =>
          simp at hx
          subst hx
          exact digit_not_alpha d hd
        | cons b t =>
          simp at hx
          subst hx
          exact space_not_alpha b (hw2 b (by simp)))
    have e3 := span_append pyIsSpace w2 ((d :: ds') ++ w3) hw2
      (by intro x hx; simp at hx; subst hx; exact digit_not_space d hd)
    have e4 := span_append Char.isDigit (d :: ds') w3 hdsdig
      (by
        intro x hx
        cases w3 with
        | nil => simp at hx
        | cons b t =>
          simp at hx
          subst hx
          exact space_not_digit b (hw3 b (by simp)))
    rw [pfxOfName, hsplit, e1.2, e2.1, e2.2, e3.2, e4.1, e4.2]
    rw [if_neg (by simp), if_neg (by simp)]
    rw [if_pos (List.all_eq_true.mpr hw3)]

/-- C6 counterexample: the name `" R101"` (leading whitespace) has no leading
alphabetic run, so per the claim the prefix should be absent; the code's
regex skips the whitespace and extracts `"R"`. -/
theorem c6_counterexample :
    pfxOfName " R101" = some "R" ∧ claimPfx " R101" = none := by
  decide

/-- C6 witness: the amended shape at a concrete name. -/
theorem c6_witness : PfxShape "IC 42" "IC" :=
  (c6_prefix_rule.1 "IC 42" "IC").mp (by decide)

/-! ## Claim C7: numeric attribute parsing -/

/-- C7 counterexample: `float("inf")` succeeds (returning infinity, no
error), yet `"inf"` does not denote a finite decimal number, so per the claim
`getfloat` should have failed on it. -/
theorem c7_counterexample :
    getfloat (some "inf") "x" = .ok PyFloat.inf ∧ denotesFiniteDecimal "inf" = false :=
  ⟨rfl, rfl⟩

/-- C7 (amended): `getfloat` succeeds exactly when the attribute is present
and its value parses under Python's float-literal grammar — which includes
the non-finite literals `inf`/`infinity`/`nan` — and fails with an error
naming the attribute when it is missing or unparseable. -/
theorem c7_getfloat_parse (f : Option String) (name : String) :
    (f = none →
      getfloat f name = .error ("Expecting attribute \x27" ++ name ++ "\x27")) ∧
    (∀ s v, f = some s → pyfloat? s = some v → getfloat f name = .ok v) ∧
    (∀ s, f = some s → pyfloat? s = none →
      getfloat f name = .error ("Non-float value for attribute \x27" ++ name ++ "\x27")) := by
  refine ⟨?_, ?_, ?_⟩
  · rintro rfl
    rfl
  · rintro s v rfl hv
    simp [getfloat, hv]
  · rintro s rfl hv
    simp [getfloat, hv]

/-- C7 witness: `getfloat` at a present, parseable attribute value. -/
theorem c7_witness : getfloat (some "1.5") "x" = .ok (PyFloat.finite (3 / 2)) :=
  (c7_getfloat_parse (some "1.5") "x").2.1 "1.5" (PyFloat.finite (3 / 2)) rfl
    (by with_unfolding_all decide)

/-! ## Claim C4: mirroring and layer resolution -/

lemma processPads_layer_stable (top bottom : String) (m : Bool) :
    ∀ (ps : List Smd) (L : String) (acc : List Pad) (res : Option String × List Pad),
    processPads top bottom m ps (some L) acc = .ok res → res.1 = some L := by
  intro ps
  induction ps with
  | nil =>
    intro L acc res h
    simp only [processPads] at h
    rw [← Except.ok.inj h]
  | cons p rest ih =>
    intro L acc res h
    simp only [processPads] at h
    cases hl : p.layer with
    | none => simp only [hl] at h; exact absurd h (by simp)
    | some pl =>
      simp only [hl] at h
      cases hx : getfloat p.x "x" with
      | error e => simp only [hx] at h; exact absurd h (by simp)
      | ok x =>
        simp only [hx] at h
        cases hy : getfloat p.y "y" with
        | error e => simp only [hy] at h; exact absurd h (by simp)
        | ok y =>
          simp only [hy] at h
          cases hr : p.rot with
          | none =>
            simp only [hr] at h
            cases hdx : getfloat p.dx "dx" with
            | error e => simp only [hdx] at h; exact absurd h (by simp)
            | ok w =>
              simp only [hdx] at h
              cases hdy : getfloat p.dy "dy" with
              | error e => simp only [hdy] at h; exact absurd h (by simp)
              | ok hh =>
                simp only [hdy] at h
                exact ih L _ res h
          | some r =>
            simp only [hr] at h
            cases hpr : parseRot r with
            | none => simp only [hpr] at h; exact absurd h (by simp)
            | some mn =>
              simp only [hpr] at h
              cases hdx : getfloat p.dx "dx" with
              | error e => simp only [hdx] at h; exact absurd h (by simp)
              | ok w =>
                simp only [hdx] at h
                cases hdy : getfloat p.dy "dy" with
                | error e => simp only [hdy] at h; exact absurd h (by simp)
                | ok hh =>
                  simp only [hdy] at h
                  exact ih L _ res h

lemma processPads_pads_eq (top bottom : String) (m1 m2 : Bool) :
    ∀ (ps : List Smd) (cl1 cl2 : Option String) (acc : List Pad),
    (processPads top bottom m1 ps cl1 acc).map Prod.snd =
      (processPads top bottom m2 ps cl2 acc).map Prod.snd := by
  intro ps
  induction ps with
  | nil => intro cl1 cl2 acc; rfl
  | cons p rest ih =>
    intro cl1 cl2 acc
    simp only [processPads]
    cases hl : p.layer with
    | none => simp
    | some pl =>
      simp only []
      cases hx : getfloat p.x "x" with
      | error e => simp
      | ok x =>
        simp only []
        cases hy : getfloat p.y "y" with
        | error e => simp
        | ok y =>
          simp only []
          cases hr : p.rot with
          | none =>
            simp only []
            cases hdx : getfloat p.dx "dx" with
            | error e => simp
            | ok w =>
              simp only []
              cases hdy : getfloat p.dy "dy" with
              | error e => simp
              | ok hh => exact ih _ _ _
          | some r =>
            simp only []
            cases hpr : parseRot r with
            | none => simp
            | some mn =>
              simp only []
              cases hdx : getfloat p.dx "dx" with
              | error e => simp
              | ok w =>
                simp only []
                cases hdy : getfloat p.dy "dy" with
                | error e => simp
                | ok hh => exact ih _ _ _

lemma processPads_first_layer (top bottom : String) (m : Bool) (p : Smd)
    (rest : List Smd) (pl : String) (hpl : p.layer = some pl)
    (res : Option String × List Pad)
    (h : processPads top bottom m (p :: rest) none [] = .ok res) :
    res.1 = some (if m then
        (if pl = top then bottom else if pl = bottom then top else pl)
      else pl) := by
  simp only [processPads, hpl] at h
  cases hx : getfloat p.x "x" with
  | error e => simp only [hx] at h; exact absurd h (by simp)
  | ok x =>
    simp only [hx] at h
    cases hy : getfloat p.y "y" with
    | error e => simp only [hy] at h; exact absurd h (by simp)
    | ok y =>
      simp only [hy] at h
      cases hr : p.rot with
      | none =>
        simp only [hr] at h
        cases hdx : getfloat p.dx "dx" with
        | error e => simp only [hdx] at h; exact absurd h (by simp)
        | ok w =>
          simp only [hdx] at h
          cases hdy : getfloat p.dy "dy" with
          | error e => simp only [hdy] at h; exact absurd h (by simp)
          | ok hh =>
            simp only [hdy] at h
            exact processPads_layer_stable top bottom m rest _ _ res h
      | some r =>
        simp only [hr] at h
        cases hpr : parseRot r with
        | none => simp only [hpr] at h; exact absurd h (by simp)
        | some mn =>
          simp only [hpr] at h
          cases hdx : getfloat p.dx "dx" with
          | error e => simp only [hdx] at h; exact absurd h (by simp)
          | ok w =>
            simp only [hdx] at h
            cases hdy : getfloat p.dy "dy" with
            | error e => simp only [hdy] at h; exact absurd h (by simp)
            | ok hh =>
              simp only [hdy] at h
              exact processPads_layer_stable top bottom m rest _ _ res h

/-- C4: a mirrored element whose first pad's nominal layer equals the top
copper layer id resolves to the bottom copper layer id and vice versa; a
non-mirrored element's resolved layer is its first pad's nominal layer
unchanged; and mirroring changes nothing else — the pad list built is
identical whether or not the element is mirrored. -/
theorem c4_mirror_layer_swap (top bottom : String) (p : Smd) (rest : List Smd)
    (pl : String) (hpl : p.layer = some pl) :
    (∀ res, processPads top bottom true (p :: rest) none [] = .ok res →
      ((pl = top → res.1 = some bottom) ∧
       (pl ≠ top → pl = bottom → res.1 = some top) ∧
       (pl ≠ top → pl ≠ bottom → res.1 = some pl))) ∧
    (∀ res, processPads top bottom false (p :: rest) none [] = .ok res →
      res.1 = some pl) ∧
    (∀ r1 r2, processPads top bottom true (p :: rest) none [] = .ok r1 →
      processPads top bottom false (p :: rest) none [] = .ok r2 → r1.2 = r2.2) := by
  refine ⟨?_, ?_, ?_⟩
  · intro res h
    have hres := processPads_first_layer top bottom true p rest pl hpl res h
    rw [if_pos rfl] at hres
    refine ⟨fun ht => ?_, fun ht hb => ?_, fun ht hb => ?_⟩
    · rw [hres, if_pos ht]
    · rw [hres, if_neg ht, if_pos hb]
    · rw [hres, if_neg ht, if_neg hb]
  · intro res h
    have hres := processPads_first_layer top bottom false p rest pl hpl res h
    rw [if_neg (by simp)] at hres
    exact hres
  · intro r1 r2 h1 h2
    have := processPads_pads_eq top bottom true false (p :: rest) none none []
    rw [h1, h2] at this
    exact Except.ok.inj this

/-- The single pad definition used by the C4 witness. -/
def exSmd : Smd :=
  { layer := some "1", x := some "0", y := some "0",
    dx := some "2", dy := some "1", rot := none }

/-- C4 witness: a mirrored single-pad element whose pad layer is the top
layer `"1"` resolves to the bottom layer `"16"`. -/
theorem c4_witness :
    ∃ res, processPads "1" "16" true [exSmd] none [] = Except.ok res ∧
      res.1 = some "16" := by
  refine ⟨(some "16",
    [{ x := .finite 0, y := .finite 0, width := .finite 2, height := .finite 1,
       angle := none }]), by with_unfolding_all decide, ?_⟩
  exact ((c4_mirror_layer_swap "1" "16" exSmd [] "1" rfl).1 _
    (by with_unfolding_all decide)).1 rfl

/-! ## Association-list index lemmas -/

lemma idxLookup_map_append {κ : Type} [DecidableEq κ] (k k' : κ) (c : Component)
    (idx : List (κ × List Component)) :
    idxLookup k' (idx.map (fun kv => if kv.1 = k then (kv.1, kv.2 ++ [c]) else kv)) =
      if k' = k then (idxLookup k' idx).map (fun b => b ++ [c])
      else idxLookup k' idx := by
  induction idx with
  | nil => by_cases h : k' = k <;> simp [idxLookup, h]
  | cons kv rest ih =>
    simp only [List.map_cons]
    by_cases h1 : kv.1 = k
    · by_cases h2 : k' = kv.1
      · have h3 : k' = k := h2.trans h1
        simp [idxLookup, h1, h2, h3]
      · have h3 : ¬ k' = k := fun hh => h2 (h1 ▸ hh)
        simp [idxLookup, h1, h2, h3, ih]
    · by_cases h2 : k' = kv.1
      · have h3 : ¬ k' = k := fun hh => h1 (h2.symm.trans hh)
        simp [idxLookup, h1, h2, h3]
      · simp [idxLookup, h1, h2, ih]

lemma idxLookup_map_const (n n' : String) (c : Component)
    (m : List (String × Component)) :
    idxLookup n' (m.map (fun kv => if kv.1 = n then (kv.1, c) else kv)) =
      if n' = n then (idxLookup n' m).map (fun _ => c) else idxLookup n' m := by
  induction m with
  | nil => by_cases h : n' = n <;> simp [idxLookup, h]
  | cons kv rest ih =>
    simp only [List.map_cons]
    by_cases h1 : kv.1 = n
    · by_cases h2 : n' = kv.1
      · have h3 : n' = n := h2.trans h1
        simp [idxLookup, h1, h2, h3]
      · have h3 : ¬ n' = n := fun hh => h2 (h1 ▸ hh)
        simp [idxLookup, h1, h2, h3, ih]
    · by_cases h2 : n' = kv.1
      · have h3 : ¬ n' = n := fun hh => h1 (h2.symm.trans hh)
        simp [idxLookup, h1, h2, h3]
      · simp [idxLookup, h1, h2, ih]

lemma idxLookup_append_of_some {κ α : Type} [DecidableEq κ] (k : κ) (b : α)
    (idx l2 : List (κ × α)) (h : idxLookup k idx = some b) :
    idxLookup k (idx ++ l2) = some b := by
  induction idx with
  | nil => simp [idxLookup] at h
  | cons kv rest ih =>
    rw [idxLookup] at h
    by_cases h2 : k = kv.1
    · rw [if_pos h2] at h
      simp [idxLookup, h2, h]
    · rw [if_neg h2] at h
      simp [idxLookup, h2, ih h]

lemma idxLookup_append_of_none {κ α : Type} [DecidableEq κ] (k : κ)
    (idx l2 : List (κ × α)) (h : idxLookup k idx = none) :
    idxLookup k (idx ++ l2) = idxLookup k l2 := by
  induction idx with
  | nil => simp
  | cons kv rest ih =>
    rw [idxLookup] at h
    by_cases h2 : k = kv.1
    · rw [if_pos h2] at h; exact absurd h (by simp)
    · rw [if_neg h2] at h
      simp [idxLookup, h2, ih h]

lemma bucket_idxInsert {κ : Type} [DecidableEq κ] (k k' : κ) (c : Component)
    (idx : List (κ × List Component)) :
    bucket k' (idxInsert k c idx) =
      if k' = k then bucket k' idx ++ [c] else bucket k' idx := by
  unfold idxInsert
  by_cases hs : (idxLookup k idx).isSome
  · rw [if_pos hs]
    unfold bucket
    rw [idxLookup_map_append]
    by_cases h : k' = k
    · rw [if_pos h, if_pos h]
      subst h
      obtain ⟨B, hB⟩ := Option.isSome_iff_exists.mp hs
      rw [hB]
      rfl
    · rw [if_neg h, if_neg h]
  · rw [if_neg hs]
    have hnone : idxLookup k idx = none := Option.not_isSome_iff_eq_none.mp hs
    unfold bucket
    by_cases h : k' = k
    · subst h
      rw [idxLookup_append_of_none _ _ _ hnone, hnone]
      simp [idxLookup]
    · rw [if_neg h]
      cases hl : idxLookup k' idx with
      | none =>
        rw [idxLookup_append_of_none _ _ _ hl]
        simp [idxLookup, h]
      | some B =>
        rw [idxLookup_append_of_some _ _ _ _ hl]

lemma idxLookup_nameInsert (n' n : String) (c : Component)
    (m : List (String × Component)) :
    idxLookup n' (nameInsert n c m) =
      if n' = n then some c else idxLookup n' m := by
  unfold nameInsert
  by_cases hs : (idxLookup n m).isSome
  · rw [if_pos hs]
    rw [idxLookup_map_const n n' c m]
    by_cases h : n' = n
    · rw [if_pos h, if_pos h]
      subst h
      obtain ⟨b, hb⟩ := Option.isSome_iff_exists.mp hs
      rw [hb]
      rfl
    · rw [if_neg h, if_neg h]
  · rw [if_neg hs]
    have hnone : idxLookup n m = none := Option.not_isSome_iff_eq_none.mp hs
    by_cases h : n' = n
    · subst h
      rw [idxLookup_append_of_none _ _ _ hnone, if_pos rfl]
      simp [idxLookup]
    · rw [if_neg h]
      cases hl : idxLookup n' m with
      | none =>
        rw [idxLookup_append_of_none _ _ _ hl]
        simp [idxLookup, h]
      | some b =>
        rw [idxLookup_append_of_some _ _ _ _ hl]

/-! ## The extraction invariant (claims C8, C10)

All four lookup indices stay consistent with the component list as the
element loop runs: uids are assigned `0, 1, 2, …` in creation order, every
bucket holds exactly the components matching its key in parse order, the name
map holds the last component parsed with each name, and every stored
component has a nonempty pad list. -/

def ExtractionInv (bi : BoardInfo) : Prop :=
  bi.components.map Component.uid = List.range bi.components.length ∧
  (∀ v : String, bucket v bi.value_to_components =
    bi.components.filter (fun c => decide (c.value = v))) ∧
  (∀ l : Option String, bucket l bi.layer_to_components =
    bi.components.filter (fun c => decide (c.layer = l))) ∧
  (∀ p : Option String × String, bucket p bi.layer_value_to_components =
    bi.components.filter (fun c => decide ((c.layer, c.value) = p))) ∧
  (∀ n : String, idxLookup n bi.name_to_component =
    (bi.components.filter (fun c => decide (c.name = n))).getLast?) ∧
  (∀ c ∈ bi.components, c.pads ≠ [])

lemma addComponent_inv (bi : BoardInfo) (com : Component) (h : ExtractionInv bi)
    (huid : com.uid = bi.components.length) (hpads : com.pads ≠ []) :
    ExtractionInv (addComponent bi com) := by
  obtain ⟨h1, h2, h3, h4, h5, h6⟩ := h
  refine ⟨?_, ?_, ?_, ?_, ?_, ?_⟩
  · simp only [addComponent, List.map_append, List.length_append, List.map_cons,
      List.map_nil, List.length_cons, List.length_nil]
    rw [h1, huid, List.range_succ]
  · intro v
    simp only [addComponent]
    rw [bucket_idxInsert, h2 v, List.filter_append]
    by_cases hv : v = com.value
    · subst hv
      simp
    · have hd : (decide (com.value = v)) = false := decide_eq_false fun hh => hv hh.symm
      simp [hv, hd]
  · intro l
    simp only [addComponent]
    rw [bucket_idxInsert, h3 l, List.filter_append]
    by_cases hl : l = com.layer
    · subst hl
      simp
    · have hd : (decide (com.layer = l)) = false := decide_eq_false fun hh => hl hh.symm
      simp [hl, hd]
  · intro p
    simp only [addComponent]
    rw [bucket_idxInsert, h4 p, List.filter_append]
    by_cases hp : p = (com.layer, com.value)
    · subst hp
      simp
    · have hd : (decide ((com.layer, com.value) = p)) = false :=
        decide_eq_false fun hh => hp hh.symm
      simp [hp, hd]
  · intro n
    simp only [addComponent]
    rw [idxLookup_nameInsert, h5 n, List.filter_append]
    by_cases hn : n = com.name
    · subst hn
      simp [List.getLast?_concat]
    · have hd : (decide (com.name = n)) = false := decide_eq_false fun hh => hn hh.symm
      simp [hn, hd]
  · intro c hc
    simp only [addComponent, List.mem_append, List.mem_singleton] at hc
    rcases hc with hc | rfl
    · exact h6 c hc
    · exact hpads

lemma processPads_length (top bottom : String) (m : Bool) :
    ∀ (ps : List Smd) (cl : Option String) (acc : List Pad)
      (res : Option String × List Pad),
    processPads top bottom m ps cl acc = .ok res →
    res.2.length = acc.length + ps.length := by
  intro ps
  induction ps with
  | nil =>
    intro cl acc res h
    simp only [processPads] at h
    rw [← Except.ok.inj h]
    simp
  | cons p rest ih =>
    intro cl acc res h
    simp only [processPads] at h
    cases hl : p.layer with
    | none => simp only [hl] at h; exact absurd h (by simp)
    | some pl =>
      simp only [hl] at h
      cases hx : getfloat p.x "x" with
      | error e => simp only [hx] at h; exact absurd h (by simp)
      | ok x =>
        simp only [hx] at h
        cases hy : getfloat p.y "y" with
        | error e => simp only [hy] at h; exact absurd h (by simp)
        | ok y =>
          simp only [hy] at h
          cases hr : p.rot with
          | none =>
            simp only [hr] at h
            cases hdx : getfloat p.dx "dx" with
            | error e => simp only [hdx] at h; exact absurd h (by simp)
            | ok w =>
              simp only [hdx] at h
              cases hdy : getfloat p.dy "dy" with
              | error e => simp only [hdy] at h; exact absurd h (by simp)
              | ok hh =>
                simp only [hdy] at h
                have := ih _ _ res h
                simp only [List.length_append, List.length_cons, List.length_nil] at this ⊢
                omega
          | some r =>
            simp only [hr] at h
            cases hpr : parseRot r with
            | none => simp only [hpr] at h; exact absurd h (by simp)
            | some mn =>
              simp only [hpr] at h
              cases hdx : getfloat p.dx "dx" with
              | error e => simp only [hdx] at h; exact absurd h (by simp)
              | ok w =>
                simp only [hdx] at h
                cases hdy : getfloat p.dy "dy" with
                | error e => simp only [hdy] at h; exact absurd h (by simp)
                | ok hh =>
                  simp only [hdy] at h
                  have := ih _ _ res h
                  simp only [List.length_append, List.length_cons, List.length_nil] at this ⊢
                  omega

lemma processElement_ok_some (doc : Document) (top bottom : String) (uid : ℕ)
    (e : Elem) (com : Component)
    (h : processElement doc top bottom uid e = .ok (some com)) :
    com.uid = uid ∧ com.pads ≠ [] := by
  simp only [processElement] at h
  cases hn : e.name with
  | none => simp only [hn] at h; exact absurd h (by simp)
  | some compname =>
    simp only [hn] at h
    by_cases hne : compname = ""
    · rw [if_pos hne] at h; exact absurd h (by simp)
    · rw [if_neg hne] at h
      cases hv : e.value with
      | none => simp only [hv] at h; exact absurd h (by simp)
      | some compvalue =>
        simp only [hv] at h
        cases hp : e.package with
        | none => simp only [hp] at h; exact absurd h (by simp)
        | some pname =>
          simp only [hp] at h
          cases hpk : (doc.packages.filter
              (fun p => decide (p.name = some pname))).head? with
          | none => simp only [hpk] at h; exact absurd h (by simp)
          | some package =>
            simp only [hpk] at h
            by_cases hemp : package.smds.isEmpty
            · rw [if_pos hemp] at h; exact absurd h (by simp)
            · rw [if_neg hemp] at h
              have hnn : package.smds ≠ [] := by
                intro hh
                rw [hh] at hemp
                exact hemp rfl
              cases hx : getfloat e.x "x" with
              | error e' => simp only [hx] at h; exact absurd h (by simp)
              | ok compx =>
                simp only [hx] at h
                cases hy : getfloat e.y "y" with
                | error e' => simp only [hy] at h; exact absurd h (by simp)
                | ok compy =>
                  simp only [hy] at h
                  cases hr : e.rot with
                  | none =>
                    simp only [hr] at h
                    cases hpp : processPads top bottom false package.smds none [] with
                    | error e' => simp only [hpp] at h; exact absurd h (by simp)
                    | ok res =>
                      obtain ⟨complayer, ourpads⟩ := res
                      simp only [hpp] at h
                      have hcom := Option.some.inj (Except.ok.inj h)
                      rw [← hcom]
                      refine ⟨rfl, ?_⟩
                      have hlen := processPads_length top bottom false package.smds
                        none [] _ hpp
                      simp only [List.length_nil, Nat.zero_add] at hlen
                      show ourpads ≠ []
                      intro hh
                      rw [hh] at hlen
                      simp only [List.length_nil] at hlen
                      exact hnn (List.length_eq_zero.mp hlen.symm)
                  | some r =>
                    simp only [hr] at h
                    cases hpr : parseRot r with
                    | none => simp only [hpr] at h; exact absurd h (by simp)
                    | some mn =>
                      simp only [hpr] at h
                      cases hpp : processPads top bottom mn.1 package.smds none [] with
                      | error e' => simp only [hpp] at h; exact absurd h (by simp)
                      | ok res =>
                        obtain ⟨complayer, ourpads⟩ := res
                        simp only [hpp] at h
                        have hcom := Option.some.inj (Except.ok.inj h)
                        rw [← hcom]
                        refine ⟨rfl, ?_⟩
                        have hlen := processPads_length top bottom mn.1 package.smds
                          none [] _ hpp
                        simp only [List.length_nil, Nat.zero_add] at hlen
                        show ourpads ≠ []
                        intro hh
                        rw [hh] at hlen
                        simp only [List.length_nil] at hlen
                        exact hnn (List.length_eq_zero.mp hlen.symm)

lemma processElements_inv (doc : Document) (top bottom : String) :
    ∀ (es : List Elem) (bi : BoardInfo) (uid : ℕ) (bi' : BoardInfo),
    ExtractionInv bi → uid = bi.components.length →
    processElements doc top bottom es uid bi = .ok bi' → ExtractionInv bi' := by
  intro es
  induction es with
  | nil =>
    intro bi uid bi' hinv huid h
    simp only [processElements] at h
    rw [← Except.ok.inj h]
    exact hinv
  | cons e rest ih =>
    intro bi uid bi' hinv huid h
    simp only [processElements] at h
    cases hpe : processElement doc top bottom uid e with
    | error msg => simp only [hpe] at h; exact absurd h (by simp)
    | ok o =>
      simp only [hpe] at h
      cases o with
      | none => exact ih bi uid bi' hinv huid h
      | some com =>
        obtain ⟨hu, hp⟩ := processElement_ok_some doc top bottom uid e com hpe
        have hinv' := addComponent_inv bi com hinv (huid ▸ hu) hp
        refine ih (addComponent bi com) (uid + 1) bi' hinv' ?_ h
        simp [addComponent, huid]

lemma get_board_info_inv (doc : Document) (bi : BoardInfo)
    (h : get_board_info doc = .ok bi) : ExtractionInv bi := by
  simp only [get_board_info] at h
  cases hd : (doc.layers.filter (fun l => decide (l.name = some "Dimension"))).head? with
  | none => simp only [hd] at h; exact absurd h (by simp)
  | some d0 =>
    simp only [hd] at h
    cases ht : (doc.layers.filter (fun l => decide (l.name = some "Top"))).head? with
    | none => simp only [ht] at h; exact absurd h (by simp)
    | some t0 =>
      simp only [ht] at h
      cases hb : (doc.layers.filter (fun l => decide (l.name = some "Bottom"))).head? with
      | none => simp only [hb] at h; exact absurd h (by simp)
      | some b0 =>
        simp only [hb] at h
        by_cases hws : (doc.wires.filter (fun w => decide (w.layer = some "20"))).length < 2
        · rw [if_pos hws] at h; exact absurd h (by simp)
        · rw [if_neg hws] at h
          cases hbf : boundsFold
              (doc.wires.filter (fun w => decide (w.layer = some "20")))
              (.inf, .inf, .ninf, .ninf) with
          | error msg => simp only [hbf] at h; exact absurd h (by simp)
          | ok acc =>
            obtain ⟨xmin, ymin, xmax, ymax⟩ := acc
            simp only [hbf] at h
            refine processElements_inv doc (t0.number.getD "1") (b0.number.getD "16")
              doc.elements
              { dimension_layer_number := d0.number.getD "20",
                top_layer := t0.number.getD "1", bottom_layer := b0.number.getD "16",
                xmin := xmin, xmax := xmax, ymin := ymin, ymax := ymax,
                width := pysub xmax xmin, height := pysub ymax ymin,
                value_to_components := [], name_to_component := [],
                layer_to_components := [], layer_value_to_components := [],
                components := [] }
              0 bi ?_ rfl h
            exact ⟨rfl, fun v => rfl, fun l => rfl, fun p => rfl, fun n => rfl,
              fun c hc => absurd hc (List.not_mem_nil c)⟩

/-! ## Claim C10: index consistency -/

/-- C10: after a successful extraction, every component appears exactly once
in the value-index bucket for its value, the layer-index bucket for its
resolved layer, and the (layer, value)-index bucket for its pair (occurrence
counted by object identity, modelled by the `uid` field); every component in
any index bucket or in the name index is a member of `components`; and the
name index maps each name to the last component parsed with that name. -/
theorem c10_index_consistency (doc : Document) (bi : BoardInfo)
    (h : get_board_info doc = .ok bi) :
    (∀ c ∈ bi.components,
      (∃ B, idxLookup c.value bi.value_to_components = some B ∧ B.count c = 1) ∧
      (∃ B, idxLookup c.layer bi.layer_to_components = some B ∧ B.count c = 1) ∧
      (∃ B, idxLookup (c.layer, c.value) bi.layer_value_to_components = some B ∧
        B.count c = 1)) ∧
    (∀ v B, idxLookup v bi.value_to_components = some B →
      ∀ c ∈ B, c ∈ bi.components) ∧
    (∀ l B, idxLookup l bi.layer_to_components = some B →
      ∀ c ∈ B, c ∈ bi.components) ∧
    (∀ p B, idxLookup p bi.layer_value_to_components = some B →
      ∀ c ∈ B, c ∈ bi.components) ∧
    (∀ n c, idxLookup n bi.name_to_component = some c → c ∈ bi.components) ∧
    (∀ n, idxLookup n bi.name_to_component =
      (bi.components.filter (fun c => decide (c.name = n))).getLast?) := by
  obtain ⟨h1, h2, h3, h4, h5, h6⟩ := get_board_info_inv doc bi h
  have hnd : bi.components.Nodup := by
    have hm : (bi.components.map Component.uid).Nodup := by
      rw [h1]
      exact List.nodup_range _
    exact List.Nodup.of_map _ hm
  refine ⟨?_, ?_, ?_, ?_, ?_, h5⟩
  · intro c hc
    refine ⟨?_, ?_, ?_⟩
    · have hcB : c ∈ bucket c.value bi.value_to_components := by
        rw [h2]
        exact List.mem_filter.mpr ⟨hc, by simp⟩
      cases hl : idxLookup c.value bi.value_to_components with
      | none =>
        simp only [bucket, hl, Option.getD_none] at hcB
        exact absurd hcB (List.not_mem_nil c)
      | some B =>
        refine ⟨B, rfl, ?_⟩
        have hBb : B = bi.components.filter (fun x => decide (x.value = c.value)) := by
          have := h2 c.value
          simp only [bucket, hl, Option.getD_some] at this
          exact this
        rw [hBb, List.count_filter (by simp)]
        exact List.count_eq_one_of_mem hnd hc
    · have hcB : c ∈ bucket c.layer bi.layer_to_components := by
        rw [h3]
        exact List.mem_filter.mpr ⟨hc, by simp⟩
      cases hl : idxLookup c.layer bi.layer_to_components with
      | none =>
        simp only [bucket, hl, Option.getD_none] at hcB
        exact absurd hcB (List.not_mem_nil c)
      | some B =>
        refine ⟨B, rfl, ?_⟩
        have hBb : B = bi.components.filter (fun x => decide (x.layer = c.layer)) := by
          have := h3 c.layer
          simp only [bucket, hl, Option.getD_some] at this
          exact this
        rw [hBb, List.count_filter (by simp)]
        exact List.count_eq_one_of_mem hnd hc
    · have hcB : c ∈ bucket (c.layer, c.value) bi.layer_value_to_components := by
        rw [h4]
        exact List.mem_filter.mpr ⟨hc, by simp⟩
      cases hl : idxLookup (c.layer, c.value) bi.layer_value_to_components with
      | none =>
        simp only [bucket, hl, Option.getD_none] at hcB
        exact absurd hcB (List.not_mem_nil c)
      | some B =>
        refine ⟨B, rfl, ?_⟩
        have hBb : B = bi.components.filter
            (fun x => decide ((x.layer, x.value) = (c.layer, c.value))) := by
          have := h4 (c.layer, c.value)
          simp only [bucket, hl, Option.getD_some] at this
          exact this
        rw [hBb, List.count_filter (by simp)]
        exact List.count_eq_one_of_mem hnd hc
  · intro v B hB c hcB
    have hBb : B = bi.components.filter (fun x => decide (x.value = v)) := by
      have := h2 v
      simp only [bucket, hB, Option.getD_some] at this
      exact this
    rw [hBb] at hcB
    exact List.mem_of_mem_filter hcB
  · intro l B hB c hcB
    have hBb : B = bi.components.filter (fun x => decide (x.layer = l)) := by
      have := h3 l
      simp only [bucket, hB, Option.getD_some] at this
      exact this
    rw [hBb] at hcB
    exact List.mem_of_mem_filter hcB
  · intro p B hB c hcB
    have hBb : B = bi.components.filter (fun x => decide ((x.layer, x.value) = p)) := by
      have := h4 p
      simp only [bucket, hB, Option.getD_some] at this
      exact this
    rw [hBb] at hcB
    exact List.mem_of_mem_filter hcB
  · intro n c hnc
    have := h5 n
    rw [hnc] at this
    exact List.mem_of_mem_filter (List.mem_of_mem_getLast? this.symm)

/-- The single component extracted from `exDoc10`. -/
def exComp10 : Component :=
  { uid := 0, x := .finite 0, y := .finite 0, name := "R1", pfx := some "R",
    value := "10k",
    pads := [{ x := .finite 0, y := .finite 0, width := .finite 1,
               height := .finite (1 / 2), angle := none }],
    angle := none, layer := some "1" }

/-- The `BoardInfo` extracted from `exDoc10`. -/
def exBi10 : BoardInfo :=
  { dimension_layer_number := "20", top_layer := "1", bottom_layer := "16",
    xmin := .finite 0, xmax := .finite 100, ymin := .finite 0, ymax := .finite 50,
    width := .finite 100, height := .finite 50,
    value_to_components := [("10k", [exComp10])],
    name_to_component := [("R1", exComp10)],
    layer_to_components := [(some "1", [exComp10])],
    layer_value_to_components := [((some "1", "10k"), [exComp10])],
    components := [exComp10] }

/-- C10 witness: after extracting `exDoc10`, component `R1` appears exactly
once in the value-index bucket for `"10k"`. -/
theorem c10_witness :
    ∃ B, idxLookup "10k" exBi10.value_to_components = some B ∧
      B.count exComp10 = 1 := by
  have hok : get_board_info exDoc10 = Except.ok exBi10 := by
    with_unfolding_all decide
  exact ((c10_index_consistency exDoc10 exBi10 hok).1 exComp10
    (by with_unfolding_all decide)).1

/-! ## Claim C8: elements with zero-pad packages are skipped -/

/-- C8: an element whose (present) name, value and package attributes resolve
to a package with zero surface-mount pad definitions is skipped without
failing (no coordinates are even read); and after any successful extraction
every component stored in `components`, in any of the three bucket indices,
or in the name index has a nonempty pad list — a zero-pad component never
appears anywhere. -/
theorem c8_zero_pad_skip :
    (∀ (doc : Document) (top bottom : String) (uid : ℕ) (e : Elem)
       (compname compvalue pname : String) (package : Package),
      e.name = some compname → compname ≠ "" → e.value = some compvalue →
      e.package = some pname →
      (doc.packages.filter (fun p => decide (p.name = some pname))).head? =
        some package →
      package.smds = [] →
      processElement doc top bottom uid e = .ok none) ∧
    (∀ (doc : Document) (bi : BoardInfo), get_board_info doc = .ok bi →
      (∀ c ∈ bi.components, c.pads ≠ []) ∧
      (∀ v B, idxLookup v bi.value_to_components = some B → ∀ c ∈ B, c.pads ≠ []) ∧
      (∀ l B, idxLookup l bi.layer_to_components = some B → ∀ c ∈ B, c.pads ≠ []) ∧
      (∀ p B, idxLookup p bi.layer_value_to_components = some B →
        ∀ c ∈ B, c.pads ≠ []) ∧
      (∀ n c, idxLookup n bi.name_to_component = some c → c.pads ≠ [])) := by
  constructor
  · intro doc top bottom uid e compname compvalue pname package hn hne hv hp hpk hsmds
    simp only [processElement, hn, if_neg hne, hv, hp, hpk]
    rw [if_pos (by rw [hsmds]; rfl)]
  · intro doc bi h
    obtain ⟨h1, h2, h3, h4, h5, h6⟩ := get_board_info_inv doc bi h
    refine ⟨h6, ?_, ?_, ?_, ?_⟩
    · intro v B hB c hcB
      have hBb : B = bi.components.filter (fun x => decide (x.value = v)) := by
        have := h2 v
        simp only [bucket, hB, Option.getD_some] at this
        exact this
      rw [hBb] at hcB
      exact h6 c (List.mem_of_mem_filter hcB)
    · intro l B hB c hcB
      have hBb : B = bi.components.filter (fun x => decide (x.layer = l)) := by
        have := h3 l
        simp only [bucket, hB, Option.getD_some] at this
        exact this
      rw [hBb] at hcB
      exact h6 c (List.mem_of_mem_filter hcB)
    · intro p B hB c hcB
      have hBb : B = bi.components.filter
          (fun x => decide ((x.layer, x.value) = p)) := by
        have := h4 p
        simp only [bucket, hB, Option.getD_some] at this
        exact this
      rw [hBb] at hcB
      exact h6 c (List.mem_of_mem_filter hcB)
    · intro n c hnc
      have := h5 n
      rw [hnc] at this
      exact h6 c (List.mem_of_mem_filter (List.mem_of_mem_getLast? this.symm))

/-- A board whose only element references a package with zero `smd` pads. -/
def exDocSkip : Document :=
  { layers := [{ name := some "Dimension", number := some "20" },
               { name := some "Top", number := some "1" },
               { name := some "Bottom", number := some "16" }],
    wires := [{ layer := some "20", x1 := some "0", y1 := some "0",
                x2 := some "10", y2 := some "0" },
              { layer := some "20", x1 := some "0", y1 := some "0",
                x2 := some "0", y2 := some "10" }],
    packages := [{ name := some "TH1", smds := [] }],
    elements := [{ name := some "X1", value := some "v", package := some "TH1",
                   x := none, y := none, rot := none }] }

/-- C8 witness: the zero-pad element of `exDocSkip` is skipped without error,
even though its `x`/`y` attributes are missing. -/
theorem c8_witness :
    processElement exDocSkip "1" "16" 0
      { name := some "X1", value := some "v", package := some "TH1",
        x := none, y := none, rot := none } = Except.ok none :=
  c8_zero_pad_skip.1 exDocSkip "1" "16" 0 _ "X1" "v" "TH1"
    { name := some "TH1", smds := [] } rfl (by decide) rfl rfl (by decide) rfl

/-! ## Claim C2: the layout driver's grouping and highlighting -/

lemma idxInsert_ne_nil {κ : Type} [DecidableEq κ] (k : κ) (c : Component)
    (g : List (κ × List Component)) : idxInsert k c g ≠ [] := by
  unfold idxInsert
  by_cases hs : (idxLookup k g).isSome
  · rw [if_pos hs]
    cases g with
    | nil => simp [idxLookup] at hs
    | cons kv rest => simp
  · rw [if_neg hs]
    simp

lemma foldl_idxInsert_ne_nil :
    ∀ (l : List Component) (g : List (Option String × List Component)),
    g ≠ [] → l.foldl (fun g vc => idxInsert vc.pfx vc g) g ≠ [] := by
  intro l
  induction l with
  | nil => intro g hg; exact hg
  | cons b rest ih => intro g _; exact ih _ (idxInsert_ne_nil b.pfx b g)

lemma pfxGroups_ne_nil (l : List Component) (h : l ≠ []) : pfxGroups l ≠ [] := by
  cases l with
  | nil => exact absurd rfl h
  | cons b rest =>
    unfold pfxGroups
    simp only [List.foldl_cons]
    exact foldl_idxInsert_ne_nil rest _ (idxInsert_ne_nil b.pfx b [])

lemma flatMap_filter_value (vals : List String) (f : String → List Page)
    (v : String) (hnd : vals.Nodup) (hv : v ∈ vals)
    (hval : ∀ w ∈ vals, ∀ pg ∈ f w, pg.value = w) :
    ((vals.flatMap f).filter (fun pg => decide (pg.value = v))).length =
      (f v).length := by
  induction vals with
  | nil => simp at hv
  | cons w rest ih =>
    rw [List.flatMap_cons w rest f, List.filter_append]
    have hndr : rest.Nodup := hnd.of_cons
    by_cases hw : w = v
    · subst hw
      have hrest : ((rest.flatMap f).filter (fun pg => decide (pg.value = w))).length = 0 := by
        rw [List.length_eq_zero, List.filter_eq_nil_iff]
        intro pg hpg
        obtain ⟨w2, hw2, hpg2⟩ := List.mem_flatMap.mp hpg
        have hpv : pg.value = w2 := hval w2 (List.mem_cons_of_mem _ hw2) pg hpg2
        have hne : w2 ≠ w := fun hh => (List.nodup_cons.mp hnd).1 (hh ▸ hw2)
        simp [hpv, hne]
      have hself : (f w).filter (fun pg => decide (pg.value = w)) = f w :=
        List.filter_eq_self.mpr fun pg hpg => by
          simp [hval w (List.mem_cons_self w rest) pg hpg]
      rw [List.length_append, hself, hrest]
      exact Nat.add_zero _
    · have hvr : v ∈ rest := by
        rcases List.mem_cons.mp hv with hh | hh
        · exact absurd hh.symm hw
        · exact hh
      have hhead : (f w).filter (fun pg => decide (pg.value = v)) = [] := by
        rw [List.filter_eq_nil_iff]
        intro pg hpg
        have hpv : pg.value = w := hval w (List.mem_cons_self w rest) pg hpg
        simp [hpv, hw]
      rw [List.length_append, hhead]
      simp only [List.length_nil, Nat.zero_add]
      exact ih hndr hvr fun w2 hw2 => hval w2 (List.mem_cons_of_mem _ hw2)

lemma pagesForValue_value (bi : BoardInfo) (layer : String) (w : String)
    (pg : Page) (hpg : pg ∈ pagesForValue bi layer w) : pg.value = w := by
  rw [pagesForValue] at hpg
  cases hl : idxLookup (some layer, w) bi.layer_value_to_components with
  | none => simp only [hl] at hpg; exact absurd hpg (List.not_mem_nil pg)
  | some val_cs =>
    simp only [hl] at hpg
    obtain ⟨g, hg, rfl⟩ := List.mem_map.mp hpg
    rfl

/-- C2 (amended): the layout driver emits one page per (value, prefix) group
present on the chosen layer (third conjunct, under distinct value keys), and
every page emitted for a value highlights the entire (layer, value) bucket —
so every component of a bucket appears highlighted on a page for its value
(second conjunct), but on one page per distinct prefix in its bucket rather
than exactly one page. -/
theorem c2_layout_grouping (bi : BoardInfo) (layer : String) :
    (∀ pg ∈ layout_by_same_value bi layer,
      idxLookup (some layer, pg.value) bi.layer_value_to_components =
        some pg.highlighted) ∧
    (∀ kv ∈ bi.value_to_components, ∀ B,
      idxLookup (some layer, kv.1) bi.layer_value_to_components = some B →
      ∀ c ∈ B, ∃ pg ∈ layout_by_same_value bi layer,
        c ∈ pg.highlighted ∧ pg.value = kv.1) ∧
    ((bi.value_to_components.map Prod.fst).Nodup →
      ∀ kv ∈ bi.value_to_components, ∀ B,
      idxLookup (some layer, kv.1) bi.layer_value_to_components = some B →
      ((layout_by_same_value bi layer).filter
        (fun pg => decide (pg.value = kv.1))).length = (pfxGroups B).length) := by
  refine ⟨?_, ?_, ?_⟩
  · intro pg hpg
    obtain ⟨val, hval, hmem⟩ := List.mem_flatMap.mp hpg
    rw [pagesForValue] at hmem
    cases hl : idxLookup (some layer, val) bi.layer_value_to_components with
    | none => simp only [hl] at hmem; exact absurd hmem (List.not_mem_nil pg)
    | some val_cs =>
      simp only [hl] at hmem
      obtain ⟨g, hg, rfl⟩ := List.mem_map.mp hmem
      exact hl
  · intro kv hkv B hB c hcB
    obtain ⟨g, hg⟩ := List.exists_mem_of_ne_nil (pfxGroups B)
      (pfxGroups_ne_nil B (List.ne_nil_of_mem hcB))
    refine ⟨{ value := kv.1,
              names := sortNames (g.2.map (fun c => c.name)),
              muted := ((idxLookup (some layer) bi.layer_to_components).getD []).filter
                (fun c => decide (c ∉ B)),
              highlighted := B }, ?_, hcB, rfl⟩
    refine List.mem_flatMap.mpr ⟨kv.1, List.mem_map.mpr ⟨kv, hkv, rfl⟩, ?_⟩
    rw [pagesForValue]
    simp only [hB]
    exact List.mem_map.mpr ⟨g, hg, rfl⟩
  · intro hnd kv hkv B hB
    have hcount := flatMap_filter_value (bi.value_to_components.map Prod.fst)
      (pagesForValue bi layer) kv.1 hnd (List.mem_map.mpr ⟨kv, hkv, rfl⟩)
      (fun w _ => pagesForValue_value bi layer w)
    rw [layout_by_same_value, hcount, pagesForValue, hB, List.length_map]

/-- The pad shared by the C2 example components. -/
def exPad2 : Pad :=
  { x := .finite 0, y := .finite 0, width := .finite 1, height := .finite 1,
    angle := none }

/-- C2 example: resistor `R1`, value `10k`, prefix `R`, layer `1`. -/
def cR1 : Component :=
  { uid := 0, x := .finite 0, y := .finite 0, name := "R1", pfx := some "R",
    value := "10k", pads := [exPad2], angle := none, layer := some "1" }

/-- C2 example: capacitor `C2`, value `10k`, prefix `C`, layer `1`. -/
def cC2 : Component :=
  { uid := 1, x := .finite 1, y := .finite 1, name := "C2", pfx := some "C",
    value := "10k", pads := [exPad2], angle := none, layer := some "1" }

/-- A board with two same-layer, same-value components of different
prefixes, with the indices exactly as extraction would build them. -/
def exBi2 : BoardInfo :=
  { dimension_layer_number := "20", top_layer := "1", bottom_layer := "16",
    xmin := .finite 0, xmax := .finite 10, ymin := .finite 0, ymax := .finite 10,
    width := .finite 10, height := .finite 10,
    value_to_components := [("10k", [cR1, cC2])],
    name_to_component := [("R1", cR1), ("C2", cC2)],
    layer_to_components := [(some "1", [cR1, cC2])],
    layer_value_to_components := [((some "1", "10k"), [cR1, cC2])],
    components := [cR1, cC2] }

/-- C2 counterexample: on `exBi2` the layout driver emits two pages for the
two prefix groups of value `10k`, and component `R1` is rendered in the
highlight tone on both of them — not on exactly one page as claimed
(`render_components` is driven with the whole `val_cs`, line 263, while the
heading names only the prefix group's members). -/
theorem c2_counterexample :
    (layout_by_same_value exBi2 "1").length = 2 ∧
    ((layout_by_same_value exBi2 "1").countP
      (fun pg => decide (cR1 ∈ pg.highlighted))) = 2 := by
  with_unfolding_all decide

/-- C2 witness: on `exBi2`, component `R1` does appear highlighted on a page
for its value. -/
theorem c2_witness :
    ∃ pg ∈ layout_by_same_value exBi2 "1", cR1 ∈ pg.highlighted ∧
      pg.value = "10k" := by
  exact (c2_layout_grouping exBi2 "1").2.1 ("10k", [cR1, cC2]) (by decide)
    [cR1, cC2] (by with_unfolding_all decide) cR1 (by with_unfolding_all decide)

end Buildsheet
